import Mathlib

/- Verification of the DynamicWallpaper repository: shallow embedding of the
   client reconciliation engine (src/client/src/main.rs) and of the server
   upload / deduplication engine (src/server/src/main.rs), followed by
   theorems settling the specification claims. -/

/-! # Client-side data model (src/client/src/main.rs) -/

/-- Byte sequences stand for file contents; a byte is a Nat. -/
abbrev ByteSeq := List Nat

/-- Mirrors `struct Image` (client main.rs lines 154-158): a download link
paired with a filename. -/
structure Image where
  downloadLink : String
  filename : String
  deriving DecidableEq, Repr

/-- Download selection of `sync_local` (client main.rs lines 186-204): the
loop pushes a download task exactly for catalog images whose filename is not
contained in the local directory listing `local_filenames`. -/
def toDownload (images : List Image) (locals : Finset String) : List Image :=
  images.filter (fun img => decide (img.filename ∉ locals))

/-- The set `images_filenames` built by the download loop (client main.rs
lines 186-188): every catalog filename. -/
def imagesFilenames (images : List Image) : Finset String :=
  (images.map Image.filename).toFinset

/-- Delete selection of `sync_local` (client main.rs lines 209-215): local
filenames not contained in `images_filenames`. -/
def toDelete (locals : Finset String) (images : List Image) : Finset String :=
  locals.filter (fun f => f ∉ imagesFilenames images)

/-- Local directory content after one fully successful cycle of `sync_local`:
every selected download was written into the directory and every selected
delete was removed from it (client main.rs lines 183-215). -/
def localAfterSync (images : List Image) (locals : Finset String) : Finset String :=
  (locals ∪ imagesFilenames (toDownload images locals)) \ toDelete locals images

/-- The removal loop of `sync_local` (client main.rs lines 209-215) together
with `remove_file` (lines 259-263), instrumented with the list of filenames on
which `remove_file` was actually invoked.  `locals` is the iteration sequence
over the `local_filenames` set, `imgNames` is `images_filenames`, and `rm`
gives the filesystem outcome of `fs::remove_file` for each file.  The `?` on
`remove_file(path)?` makes the first failure return immediately out of
`sync_local`, which the `Except.error` propagation mirrors. -/
def removeImages (locals : List String) (imgNames : Finset String)
    (rm : String → Except String Unit) : List String × Except String Unit :=
  match locals with
  | [] => ([], Except.ok ())
  | f :: rest =>
    if f ∈ imgNames then removeImages rest imgNames rm
    else
      match rm f with
      | Except.error e => ([f], Except.error e)
      | Except.ok _ =>
        let r := removeImages rest imgNames rm
        (f :: r.1, r.2)

/-! # Server-side data model (src/server/src/main.rs) -/

/-- Mirrors `enum AppError` (server main.rs lines 192-204). -/
inductive AppError where
  | MultipartError
  | IoError
  | NotAnImage
  | FilenameTooLong
  | FileTooLarge
  deriving DecidableEq, Repr

/-- Mirrors `MAX_FILE_SIZE_BYTES` (server main.rs line 39): 30 MiB. -/
def MAX_FILE_SIZE_BYTES : Nat := 1024 * 1024 * 30

/-- Mirrors `MAX_FILE_NAME_LENGTH` (server main.rs line 40). -/
def MAX_FILE_NAME_LENGTH : Nat := 255

/-- Mirrors `IMAGE_DIRECTORY` (server main.rs line 37). -/
def IMAGE_DIRECTORY : String := "wallpapers"

/-- Server state: the files of the image directory (path, bytes) and the
`FILE_HASHES` digest index (path, hash value), server main.rs lines 33-34.
The SHA-256 digest codomain is modelled as `ByteSeq`; every embedded server
operation is parametric in the hash function. -/
structure ServerState where
  disk : List (String × ByteSeq)
  index : List (String × ByteSeq)
  deriving DecidableEq, Repr

/-- Splitting a character list at every occurrence of `sep`, keeping empty
segments: the behaviour of Rust `str::split(char)` ("a..b" gives
["a", "", "b"], "" gives [""]). -/
def splitChar (sep : Char) : List Char → List (List Char)
  | [] => [[]]
  | c :: rest =>
    match splitChar sep rest with
    | [] => [[c]]
    | w :: ws => if c = sep then [] :: w :: ws else (c :: w) :: ws

/-- Mirrors `is_valid_image_extension` (server main.rs lines 227-235): at
least two `'.'`-separated parts, and the lowercased last part must be one of
jpg, jpeg, png, webp. -/
def isValidImageExtension (filename : String) : Bool :=
  let parts := splitChar '.' filename.data
  if parts.length < 2 then false
  else
    let ext := List.map Char.toLower (parts.getLastD [])
    decide (ext = "jpg".data) || decide (ext = "jpeg".data) ||
      decide (ext = "png".data) || decide (ext = "webp".data)

/-- Word delimiters removed by `convert_case` default boundaries
(space, hyphen, underscore). -/
def isWordDelim (c : Char) : Bool := c = ' ' || c = '-' || c = '_'

/-- Two-character word boundaries of the `convert_case` crate's default
boundary set: lower→upper, upper→digit, digit→upper, digit→lower. -/
def isPairBoundary (c1 c2 : Char) : Bool :=
  (c1.isLower && c2.isUpper) || (c1.isUpper && c2.isDigit) ||
    (c1.isDigit && c2.isUpper) || (c1.isDigit && c2.isLower)

/-- The acronym boundary of `convert_case`: within upper-upper-lower the word
splits between the two uppercase characters. -/
def isAcronymBoundary (c1 c2 c3 : Char) : Bool :=
  c1.isUpper && c2.isUpper && c3.isLower

/-- Word segmentation of `convert_case` with its default boundaries:
delimiters are dropped, other characters accumulate into words that are cut
at pair/acronym boundaries. -/
def splitWordsGo (cur : List Char) : List Char → List (List Char)
  | [] => if cur.isEmpty then [] else [cur]
  | c :: rest =>
    if isWordDelim c then
      (if cur.isEmpty then [] else [cur]) ++ splitWordsGo [] rest
    else
      match rest with
      | [] => [cur ++ [c]]
      | c2 :: rest2 =>
        let bnd := isPairBoundary c c2 ||
          (match rest2 with
           | c3 :: _ => isAcronymBoundary c c2 c3
           | [] => false)
        if bnd then (cur ++ [c]) :: splitWordsGo [] rest
        else splitWordsGo (cur ++ [c]) rest

/-- Joining words with underscores (the Snake case pattern). -/
def joinUnderscore : List (List Char) → List Char
  | [] => []
  | [w] => w
  | w :: ws => w ++ '_' :: joinUnderscore ws

/-- Model of `text.to_case(Case::Snake)` from the external `convert_case`
crate used by `sanitize` (server main.rs line 269): split into words at the
default boundaries, lowercase every word, join with underscores. -/
def snakeCase (s : String) : String :=
  String.mk (joinUnderscore ((splitWordsGo [] s.data).map (List.map Char.toLower)))

/-- Mirrors `sanitize` (server main.rs lines 266-272): snake-case the string,
then keep only ASCII characters. -/
def sanitize (text : String) : String :=
  String.mk ((snakeCase text).data.filter (fun c => c.toNat ≤ 127))

/-- Joining segments back with dots. -/
def joinDot : List (List Char) → List Char
  | [] => []
  | [w] => w
  | w :: ws => w ++ '.' :: joinDot ws

/-- Model of Rust `Path::file_stem` for the names reaching
`generate_filename`: take the last `/`-separated component; the stem is the
whole name when it contains no dot, or when its only dot is the leading one,
and otherwise the part before the final dot. -/
def rustFileStem (s : String) : Option String :=
  let name := (splitChar '/' s.data).getLastD []
  if name = [] then none
  else if name = "..".data then none
  else
    match splitChar '.' name with
    | [] => none
    | [_] => some (String.mk name)
    | p :: ps =>
      if p = [] ∧ ps.length = 1 then some (String.mk name)
      else some (String.mk (joinDot ((p :: ps).dropLast)))

/-- Mirrors `generate_filename` (server main.rs lines 237-264): sanitize the
input, take the lowercased extension (last dot segment of the sanitized
name), take the file stem of the sanitized name, and build
`stem-uuid.extension`; names longer than `MAX_FILE_NAME_LENGTH` fail with
`FilenameTooLong`.  The random `Uuid::new_v4` is passed in as `uuid`. -/
def generateFilename (uuid : String) (filenameInput : String) : Except AppError String :=
  let filename := sanitize filenameInput
  match (splitChar '.' filename.data).getLast? with
  | none => Except.error AppError.NotAnImage
  | some extRaw =>
    let extension := List.map Char.toLower extRaw
    match rustFileStem filename with
    | none => Except.error AppError.NotAnImage
    | some fileStem =>
      let result := fileStem ++ "-" ++ uuid ++ "." ++ String.mk extension
      if result.data.length > MAX_FILE_NAME_LENGTH then Except.error AppError.FilenameTooLong
      else Except.ok result

/-- The image-directory path of a stored name, `Path::new(IMAGE_DIRECTORY).join(name)`
(server main.rs line 301). -/
def imgPath (n : String) : String := IMAGE_DIRECTORY ++ "/" ++ n

/-- Mirrors `HashMap::insert` on `FILE_HASHES` (any previous binding of the
same path is replaced). -/
def indexInsert (ix : List (String × ByteSeq)) (p : String) (h : ByteSeq) :
    List (String × ByteSeq) :=
  ix.filter (fun e => !(e.1 == p)) ++ [(p, h)]

/-- Mirrors `is_file_duplicate` (server main.rs lines 183-190): hash the
file's content and scan the digest-index values for an equal hash. -/
def isFileDuplicate (hash : ByteSeq → ByteSeq) (index : List (String × ByteSeq))
    (content : ByteSeq) : Bool :=
  index.any (fun e => e.2 == hash content)

/-- One multipart field of an upload request: the part name, the declared
filename, and the streamed body chunks. -/
structure MultipartField where
  fieldName : Option String
  fileName : Option String
  chunks : List ByteSeq
  deriving DecidableEq, Repr

/-- Total size of the streamed chunks in bytes. -/
def sizeOfChunks (chunks : List ByteSeq) : Nat := (chunks.map List.length).sum

/-- Mirrors the loop of `upload_and_save` (server main.rs lines 338-355):
`file_size` accumulates the chunk lengths, each chunk is size-checked before
being written, and crossing `MAX_FILE_SIZE_BYTES` aborts with `FileTooLarge`.
Returns the chunks actually written and the error, if any. -/
def uploadAndSaveGo (fileSize : Nat) : List ByteSeq → List ByteSeq × Option AppError
  | [] => ([], none)
  | ch :: rest =>
    if fileSize + ch.length > MAX_FILE_SIZE_BYTES then ([], some AppError.FileTooLarge)
    else
      let r := uploadAndSaveGo (fileSize + ch.length) rest
      (ch :: r.1, r.2)

/-- Mirrors `upload_and_save` (server main.rs lines 338-355), starting from a
zero cumulative size. -/
def uploadAndSave (chunks : List ByteSeq) : List ByteSeq × Option AppError :=
  uploadAndSaveGo 0 chunks

/-- Mirrors `upload_file` (server main.rs lines 274-335).  The handler walks
the multipart fields; for each one it validates the part name, the declared
filename and its extension, generates a storage name (`uuids` supplies one
random suffix per field), creates the file (`File::create_new` fails when the
path already exists), streams the body with the size check, and finally runs
the dedup gate: a content whose hash is already among the digest-index values
has its file removed again, otherwise the (path, hash) pair is inserted.
Error returns leave the state as it was at that point; on the
`upload_and_save` error path the partially written file has already been
removed again, so the state is likewise unchanged.  An exhausted field list
returns the success message. -/
def uploadFile (hash : ByteSeq → ByteSeq) :
    List String → List MultipartField → ServerState → Except AppError String × ServerState
  | _, [], st => (Except.ok "File uploaded successfully", st)
  | uuids, field :: rest, st =>
    if field.fieldName ≠ some "wallpaper" then (Except.error AppError.NotAnImage, st)
    else
      match field.fileName with
      | none => (Except.error AppError.NotAnImage, st)
      | some receivedFilename =>
        if receivedFilename = "" then (Except.error AppError.NotAnImage, st)
        else if !(isValidImageExtension receivedFilename) then
          (Except.error AppError.NotAnImage, st)
        else
          match generateFilename (uuids.headD "") receivedFilename with
          | Except.error e => (Except.error e, st)
          | Except.ok finalFilename =>
            let finalFilepath := imgPath finalFilename
            if st.disk.any (fun e => e.1 == finalFilepath) then
              (Except.error AppError.IoError, st)
            else
              match (uploadAndSave field.chunks).2 with
              | some e => (Except.error e, st)
              | none =>
                let content := field.chunks.flatten
                if isFileDuplicate hash st.index content then
                  uploadFile hash uuids.tail rest st
                else
                  uploadFile hash uuids.tail rest
                    ⟨st.disk ++ [(finalFilepath, content)],
                     indexInsert st.index finalFilepath (hash content)⟩

/-- Response body of the delete route. -/
inductive DeleteResponse where
  | success (msg : String)
  | failure (msg : String)
  deriving DecidableEq, Repr

/-- Mirrors `delete_image` (server main.rs lines 396-419): try to remove the
file at `IMAGE_DIRECTORY/filename`; on success also drop the digest-index
entry keyed by the last `/`-segment of the filename, on failure answer with
the JSON error body.  Both arms produce HTTP status 200 (both are plain
`Json(..).into_response()`), recorded as the first component. -/
def deleteImage (st : ServerState) (filename : String) :
    (Nat × DeleteResponse) × ServerState :=
  let filePath := imgPath filename
  if st.disk.any (fun e => e.1 == filePath) then
    let key := imgPath (String.mk ((splitChar '/' filename.data).getLastD []))
    ((200, DeleteResponse.success "Image deleted successfully"),
      ⟨st.disk.filter (fun e => !(e.1 == filePath)),
       st.index.filter (fun e => !(e.1 == key))⟩)
  else ((200, DeleteResponse.failure "Image not found"), st)

/-- Number of files on disk holding exactly the content `c`. -/
def countContent (disk : List (String × ByteSeq)) (c : ByteSeq) : Nat :=
  (disk.filter (fun e => e.2 == c)).length

/-- Number of digest-index entries carrying the hash value `h`. -/
def countHash (ix : List (String × ByteSeq)) (h : ByteSeq) : Nat :=
  (ix.filter (fun e => e.2 == h)).length

/-- Consistency of a server state, the startup guarantee established by
`compute_initial_digests` (server main.rs lines 115-152) together with the
intended digest-index invariant of the specification: disk paths are unique,
every file on disk is indexed under its hash, every index entry comes from a
disk file, and no two live index entries share a hash value. -/
def Consistent (hash : ByteSeq → ByteSeq) (st : ServerState) : Prop :=
  (st.disk.map Prod.fst).Nodup ∧
  (∀ p c, (p, c) ∈ st.disk → (p, hash c) ∈ st.index) ∧
  (∀ p h, (p, h) ∈ st.index → ∃ c, (p, c) ∈ st.disk ∧ h = hash c) ∧
  (st.index.map Prod.snd).Nodup

/-- Suffix test on strings by comparing reversed character lists (used to
state that a generated name ends with a given extension). -/
def strEndsWith (s t : String) : Bool := t.data.reverse.isPrefixOf s.data.reverse

/-! # Interleaving model of concurrent uploads (server main.rs lines 274-335)

Two upload handlers for the same content run concurrently.  The lock on
`FILE_HASHES` makes the duplicate scan of `is_file_duplicate` and the insert
of `add_digest` individually atomic, but the hash computation and the
check-then-insert sequence are not, so the handlers interleave at three
atomic steps: write the file, run the duplicate check, resolve (remove the
file when the check saw a duplicate, otherwise insert the digest). -/

/-- Program counter and remembered duplicate-check result of one upload task.
`pc` 0: about to create and write the file; 1: about to run
`is_file_duplicate`; 2: about to resolve; 3: done. -/
structure TaskState where
  pc : Nat
  dup : Bool
  deriving DecidableEq, Repr

/-- One atomic step of an upload task storing content `c` at path `p`. -/
def taskStep (hash : ByteSeq → ByteSeq) (p : String) (c : ByteSeq)
    (ts : TaskState) (st : ServerState) : TaskState × ServerState :=
  match ts.pc with
  | 0 => (⟨1, ts.dup⟩, ⟨st.disk ++ [(p, c)], st.index⟩)
  | 1 => (⟨2, isFileDuplicate hash st.index c⟩, st)
  | 2 =>
    if ts.dup then (⟨3, ts.dup⟩, ⟨st.disk.filter (fun e => !(e.1 == p)), st.index⟩)
    else (⟨3, ts.dup⟩, ⟨st.disk, indexInsert st.index p (hash c)⟩)
  | _ => (ts, st)

/-- Runs a schedule over two upload tasks of the same content `c`; a `false`
entry steps task one (path `p1`), a `true` entry steps task two (path `p2`). -/
def runSched (hash : ByteSeq → ByteSeq) (p1 p2 : String) (c : ByteSeq) :
    List Bool → TaskState × TaskState × ServerState → TaskState × TaskState × ServerState
  | [], s => s
  | b :: bs, (t1, t2, st) =>
    if b then
      let r := taskStep hash p2 c t2 st
      runSched hash p1 p2 c bs (t1, r.1, r.2)
    else
      let r := taskStep hash p1 c t1 st
      runSched hash p1 p2 c bs (r.1, t2, r.2)

/-! # Client-side theorems -/

/-- Helper: membership in the download selection. -/
theorem mem_toDownload (images : List Image) (locals : Finset String) (img : Image) :
    img ∈ toDownload images locals ↔ img ∈ images ∧ img.filename ∉ locals := by
  simp [toDownload, List.mem_filter]

/-- Helper: membership in the delete selection. -/
theorem mem_toDelete (images : List Image) (locals : Finset String) (f : String) :
    f ∈ toDelete locals images ↔ f ∈ locals ∧ f ∉ imagesFilenames images := by
  simp [toDelete, Finset.mem_filter]

/-- C1: the reconciliation of `sync_local` selects for download exactly the
catalog records whose filename is absent locally, selects for deletion
exactly the local filenames appearing in no catalog record, and no filename
is both downloaded and deleted in the same cycle. -/
theorem claim_c1 (images : List Image) (locals : Finset String) :
    (∀ img, img ∈ toDownload images locals ↔ img ∈ images ∧ img.filename ∉ locals) ∧
    (∀ f, f ∈ toDelete locals images ↔ f ∈ locals ∧ f ∉ imagesFilenames images) ∧
    (∀ f, f ∈ (toDownload images locals).map Image.filename →
      f ∉ toDelete locals images) := by
  refine ⟨mem_toDownload images locals, mem_toDelete images locals, ?_⟩
  intro f hf
  rcases List.mem_map.mp hf with ⟨img, himg, rfl⟩
  rcases (mem_toDownload images locals img).mp himg with ⟨-, hnotin⟩
  intro hdel
  exact hnotin ((mem_toDelete images locals img.filename).mp hdel).1

/-- Witness for C1 at a concrete catalog and inventory. -/
theorem claim_c1_witness :
    "a.png" ∉ toDelete {"b.png"} [⟨"l/a.png", "a.png"⟩] :=
  (claim_c1 [⟨"l/a.png", "a.png"⟩] {"b.png"}).2.2 "a.png" (by decide)

/-- Helper: a fully successful cycle leaves the directory holding exactly the
catalog filenames. -/
theorem localAfterSync_eq (images : List Image) (locals : Finset String) :
    localAfterSync images locals = imagesFilenames images := by
  ext f
  simp only [localAfterSync, toDownload, toDelete, imagesFilenames,
    Finset.mem_sdiff, Finset.mem_union, Finset.mem_filter, List.mem_toFinset,
    List.mem_map, List.mem_filter, decide_eq_true_eq]
  constructor
  · rintro ⟨h1 | ⟨a, ⟨ha, -⟩, hfa⟩, h2⟩
    · by_contra hne
      exact h2 ⟨h1, hne⟩
    · exact ⟨a, ha, hfa⟩
  · rintro ⟨a, ha, rfl⟩
    by_cases hl : a.filename ∈ locals
    · exact ⟨Or.inl hl, fun h => h.2 ⟨a, ha, rfl⟩⟩
    · exact ⟨Or.inr ⟨a, ⟨ha, hl⟩, rfl⟩, fun h => h.2 ⟨a, ha, rfl⟩⟩

/-- C9: after one fully successful reconciliation cycle, a second
reconciliation against the unchanged catalog computes an empty download
selection and an empty delete selection. -/
theorem claim_c9 (images : List Image) (locals : Finset String) :
    toDownload images (localAfterSync images locals) = [] ∧
    toDelete (localAfterSync images locals) images = ∅ := by
  rw [localAfterSync_eq]
  constructor
  · refine List.filter_eq_nil_iff.mpr ?_
    intro img himg
    simp only [decide_eq_true_eq, Decidable.not_not]
    exact List.mem_toFinset.mpr (List.mem_map.mpr ⟨img, himg, rfl⟩)
  · refine Finset.filter_eq_empty_iff.mpr ?_
    intro f hf
    exact fun hno => hno hf

/-- C5 counterexample: a single failing removal makes the deletion loop of
`sync_local` return the error (the `?` on `remove_file(path)?` propagates it),
so the sync cycle aborts instead of merely logging the failure. -/
theorem claim_c5_counterexample :
    removeImages ["a"] ∅ (fun _ => Except.error "permission denied") =
      (["a"], Except.error "permission denied") ∧
    (removeImages ["a"] ∅ (fun _ => Except.error "permission denied")).2 ≠
      Except.ok () :=
  ⟨rfl, fun h => Except.noConfusion h⟩

/-- C5 as amended: the Local Reaper is not failure-isolated; the first
removal that fails aborts the deletion loop with that error (propagated out
of `sync_local`), and the files after the failing one in iteration order are
never attempted — only the non-synced files before it, plus the failing file,
see `remove_file` invocations recorded in the first component. -/
theorem claim_c5_corrected (pre post : List String) (f : String)
    (imgNames : Finset String) (rm : String → Except String Unit) (e : String)
    (hpre : ∀ g ∈ pre, g ∈ imgNames ∨ rm g = Except.ok ())
    (hf : f ∉ imgNames) (hrm : rm f = Except.error e) :
    removeImages (pre ++ f :: post) imgNames rm =
      (pre.filter (fun g => decide (g ∉ imgNames)) ++ [f], Except.error e) := by
  induction pre with
  | nil =>
    simp only [List.nil_append, List.filter_nil]
    rw [removeImages, if_neg hf, hrm]
  | cons g pre ih =>
    have hg := hpre g (List.mem_cons_self g pre)
    have hrest : ∀ x ∈ pre, x ∈ imgNames ∨ rm x = Except.ok () :=
      fun x hx => hpre x (List.mem_cons_of_mem g hx)
    rcases hg with hg | hg
    · rw [List.cons_append, removeImages, if_pos hg, ih hrest]
      simp [List.filter_cons, hg]
    · by_cases hmem : g ∈ imgNames
      · rw [List.cons_append, removeImages, if_pos hmem, ih hrest]
        simp [List.filter_cons, hmem]
      · rw [List.cons_append, removeImages, if_neg hmem, hg, ih hrest]
        simp [List.filter_cons, hmem]

/-- Witness for C5 as amended: with local files x (synced), a (fails), b, the
loop aborts at a and never attempts b. -/
theorem claim_c5_witness :
    removeImages ["x", "a", "b"] {"x"}
        (fun s => if s = "a" then Except.error "perm" else Except.ok ()) =
      (["a"], Except.error "perm") :=
  claim_c5_corrected ["x"] ["b"] "a" {"x"}
    (fun s => if s = "a" then Except.error "perm" else Except.ok ()) "perm"
    (fun g hg => by
      rcases List.mem_singleton.mp hg with rfl
      exact Or.inl (by decide))
    (by decide) rfl

/-! # Server-side theorems -/

/-- C10: an upload request with zero multipart fields never enters the field
loop, so the handler answers with the success message and neither the image
directory nor the digest index changes. -/
theorem claim_c10 (hash : ByteSeq → ByteSeq) (uuids : List String) (st : ServerState) :
    uploadFile hash uuids [] st = (Except.ok "File uploaded successfully", st) := rfl

/-- C8: deleting a filename whose path is not on disk answers with status 200
and the JSON body `{"error": "Image not found"}`, and leaves the whole server
state — in particular the digest index — untouched. -/
theorem claim_c8 (st : ServerState) (filename : String)
    (habs : st.disk.any (fun e => e.1 == imgPath filename) = false) :
    deleteImage st filename = ((200, DeleteResponse.failure "Image not found"), st) := by
  simp [deleteImage, habs]

/-- Witness for C8: deleting from an empty image directory. -/
theorem claim_c8_witness :
    deleteImage ⟨[], []⟩ "x.jpg" =
      ((200, DeleteResponse.failure "Image not found"), ⟨[], []⟩) :=
  claim_c8 ⟨[], []⟩ "x.jpg" rfl

/-- C6: a first multipart field whose name is not `wallpaper`, or whose
declared filename is missing or empty, or whose declared filename fails the
case-insensitive jpg/jpeg/png/webp extension check, makes the handler fail
with `NotAnImage` before any file is created or any byte written: the
returned state is exactly the input state. -/
theorem claim_c6 (hash : ByteSeq → ByteSeq) (uuids : List String)
    (st : ServerState) (field : MultipartField) (rest : List MultipartField)
    (hbad : field.fieldName ≠ some "wallpaper" ∨ field.fileName = none ∨
      field.fileName = some "" ∨
      ∃ fn, field.fileName = some fn ∧ isValidImageExtension fn = false) :
    uploadFile hash uuids (field :: rest) st = (Except.error AppError.NotAnImage, st) := by
  obtain ⟨fname, fileN, chunks⟩ := field
  rcases hbad with h | h | h | ⟨fn, hfn, hv⟩
  · simp only at h
    simp [uploadFile, h]
  · simp only at h
    subst h
    by_cases hname : fname = some "wallpaper" <;> simp [uploadFile, hname]
  · simp only at h
    subst h
    by_cases hname : fname = some "wallpaper" <;> simp [uploadFile, hname]
  · simp only at hfn
    subst hfn
    by_cases hname : fname = some "wallpaper" <;>
      by_cases hfe : fn = "" <;> simp [uploadFile, hname, hfe, hv]

/-- Witness for C6: uploading `a.gif` is rejected with `NotAnImage` and the
state is unchanged. -/
theorem claim_c6_witness :
    uploadFile (fun c => c) [] [⟨some "wallpaper", some "a.gif", [[1]]⟩] ⟨[], []⟩ =
      (Except.error AppError.NotAnImage, ⟨[], []⟩) :=
  claim_c6 (fun c => c) [] ⟨[], []⟩ ⟨some "wallpaper", some "a.gif", [[1]]⟩ []
    (Or.inr (Or.inr (Or.inr ⟨"a.gif", rfl, by decide⟩)))

/-- Helper: chunk sizes accumulate over cons. -/
theorem sizeOfChunks_cons (ch : ByteSeq) (rest : List ByteSeq) :
    sizeOfChunks (ch :: rest) = ch.length + sizeOfChunks rest := by
  simp [sizeOfChunks]

/-- Helper: when the total streamed size stays within the limit, every chunk
is written and no error occurs. -/
theorem uploadAndSaveGo_ok (chunks : List ByteSeq) :
    ∀ s, s + sizeOfChunks chunks ≤ MAX_FILE_SIZE_BYTES →
      uploadAndSaveGo s chunks = (chunks, none) := by
  induction chunks with
  | nil => intro s _; rfl
  | cons ch rest ih =>
    intro s hs
    rw [sizeOfChunks_cons] at hs
    rw [uploadAndSaveGo, if_neg (by omega), ih (s + ch.length) (by omega)]

/-- Helper: when the total streamed size crosses the limit, the stream aborts
with `FileTooLarge` at the first chunk that pushes the cumulative size past
it, having written exactly the chunks before that one. -/
theorem uploadAndSaveGo_err (chunks : List ByteSeq) :
    ∀ s, s ≤ MAX_FILE_SIZE_BYTES → MAX_FILE_SIZE_BYTES < s + sizeOfChunks chunks →
      ∃ k, uploadAndSaveGo s chunks = (chunks.take k, some AppError.FileTooLarge) ∧
        s + sizeOfChunks (chunks.take k) ≤ MAX_FILE_SIZE_BYTES ∧
        MAX_FILE_SIZE_BYTES < s + sizeOfChunks (chunks.take (k + 1)) := by
  induction chunks with
  | nil =>
    intro s hs hbig
    simp [sizeOfChunks] at hbig
    omega
  | cons ch rest ih =>
    intro s hs hbig
    rw [sizeOfChunks_cons] at hbig
    by_cases hfirst : MAX_FILE_SIZE_BYTES < s + ch.length
    · refine ⟨0, ?_, ?_, ?_⟩
      · rw [uploadAndSaveGo, if_pos (by omega)]
        simp
      · simpa [sizeOfChunks] using hs
      · simpa [sizeOfChunks_cons, sizeOfChunks] using hfirst
    · obtain ⟨k, hk, hk1, hk2⟩ :=
        ih (s + ch.length) (by omega) (by omega)
      refine ⟨k + 1, ?_, ?_, ?_⟩
      · rw [uploadAndSaveGo, if_neg (by omega), hk]
        simp
      · rw [List.take_succ_cons, sizeOfChunks_cons]
        omega
      · rw [List.take_succ_cons, sizeOfChunks_cons]
        omega

/-- C4: a single-field upload of `wallpaper` with a valid image filename
whose streamed chunks exceed 30 MiB in total fails with `FileTooLarge` and
leaves the server state unchanged (the partially written file is removed
again), and the stream is aborted at exactly the first chunk that pushes the
cumulative size past the limit: the written prefix `chunks.take k` fits the
limit while adding the next chunk exceeds it. -/
theorem claim_c4 (hash : ByteSeq → ByteSeq) (u fn n : String)
    (chunks : List ByteSeq) (st : ServerState)
    (hv : isValidImageExtension fn = true)
    (hg : generateFilename u fn = Except.ok n)
    (hfresh : st.disk.any (fun e => e.1 == imgPath n) = false)
    (hbig : MAX_FILE_SIZE_BYTES < sizeOfChunks chunks) :
    uploadFile hash [u] [⟨some "wallpaper", some fn, chunks⟩] st =
      (Except.error AppError.FileTooLarge, st) ∧
    ∃ k, uploadAndSave chunks = (chunks.take k, some AppError.FileTooLarge) ∧
      sizeOfChunks (chunks.take k) ≤ MAX_FILE_SIZE_BYTES ∧
      MAX_FILE_SIZE_BYTES < sizeOfChunks (chunks.take (k + 1)) := by
  obtain ⟨k, hk, hk1, hk2⟩ :=
    uploadAndSaveGo_err chunks 0 (by omega) (by omega)
  have hfn : fn ≠ "" := by
    intro hfe
    rw [hfe] at hv
    exact absurd hv (by decide)
  refine ⟨?_, k, hk, by omega, by omega⟩
  simp [uploadFile, hfn, hv, hg, hfresh, uploadAndSave, hk]

/-- Witness for C4: a single chunk one byte past 30 MiB is rejected. -/
theorem claim_c4_witness :
    uploadFile (fun c => c) ["u"]
        [⟨some "wallpaper", some "a.jpg", [List.replicate (MAX_FILE_SIZE_BYTES + 1) 0]⟩]
        ⟨[], []⟩ =
      (Except.error AppError.FileTooLarge, ⟨[], []⟩) ∧
    ∃ k, uploadAndSave [List.replicate (MAX_FILE_SIZE_BYTES + 1) 0] =
        ([List.replicate (MAX_FILE_SIZE_BYTES + 1) 0].take k, some AppError.FileTooLarge) ∧
      sizeOfChunks ([List.replicate (MAX_FILE_SIZE_BYTES + 1) 0].take k) ≤ MAX_FILE_SIZE_BYTES ∧
      MAX_FILE_SIZE_BYTES <
        sizeOfChunks ([List.replicate (MAX_FILE_SIZE_BYTES + 1) 0].take (k + 1)) :=
  claim_c4 (fun c => c) "u" "a.jpg" "a-u.jpg"
    [List.replicate (MAX_FILE_SIZE_BYTES + 1) 0] ⟨[], []⟩
    (by decide) rfl rfl (by simp [sizeOfChunks])

/-- Helper: a list is a prefix of itself followed by anything. -/
theorem isPrefixOf_append_self (l z : List Char) : l.isPrefixOf (l ++ z) = true := by
  induction l with
  | nil => simp [List.isPrefixOf]
  | cons c t ih => simp [List.isPrefixOf, ih]

/-- Helper: a string always ends with its own final segment. -/
theorem strEndsWith_append (a b : String) : strEndsWith (a ++ b) b = true := by
  simp only [strEndsWith, String.data_append, List.reverse_append]
  exact isPrefixOf_append_self b.data.reverse a.data.reverse

/-- C7 counterexample: the declared filename `photo.jPg` passes the
case-insensitive extension check (its extension lowercases to `jpg`), but the
sanitizer's snake-casing splits the lower-to-upper transition inside the
extension, so the generated storage name is `photo-u.j_pg`, which does not
end with the dot-separated, lowercased original extension `.jpg`. -/
theorem claim_c7_counterexample :
    isValidImageExtension "photo.jPg" = true ∧
    generateFilename "u" "photo.jPg" = Except.ok "photo-u.j_pg" ∧
    strEndsWith "photo-u.j_pg" ".jpg" = false :=
  ⟨by decide, rfl, by decide⟩

/-- C7 as amended: for every accepted upload the generated storage name is
the sanitized name's file stem, a dash, the random suffix, a dot, and the
lowercased extension of the **sanitized** name (which coincides with the
lowercased original extension whenever snake-casing leaves the extension
unsplit, e.g. for single-case extensions) — in particular the name ends with
that dot-separated lowercased extension and fits `MAX_FILE_NAME_LENGTH`; and
whenever the name so built exceeds `MAX_FILE_NAME_LENGTH`, the operation
fails with `FilenameTooLong` instead of storing anything. -/
theorem claim_c7_corrected (u f : String) :
    (∀ n, generateFilename u f = Except.ok n →
      ∃ stem extRaw,
        rustFileStem (sanitize f) = some stem ∧
        (splitChar '.' (sanitize f).data).getLast? = some extRaw ∧
        n = stem ++ "-" ++ u ++ "." ++ String.mk (List.map Char.toLower extRaw) ∧
        strEndsWith n ("." ++ String.mk (List.map Char.toLower extRaw)) = true ∧
        n.data.length ≤ MAX_FILE_NAME_LENGTH) ∧
    (∀ stem extRaw,
      rustFileStem (sanitize f) = some stem →
      (splitChar '.' (sanitize f).data).getLast? = some extRaw →
      MAX_FILE_NAME_LENGTH <
        (stem ++ "-" ++ u ++ "." ++ String.mk (List.map Char.toLower extRaw)).data.length →
      generateFilename u f = Except.error AppError.FilenameTooLong) := by
  constructor
  · intro n hn
    simp only [generateFilename] at hn
    split at hn
    · exact absurd hn (by simp)
    · rename_i extRaw hext
      split at hn
      · exact absurd hn (by simp)
      · rename_i stem hstem
        split at hn
        · exact absurd hn (by simp)
        · rename_i hlen
          injection hn with hn2
          subst hn2
          refine ⟨stem, extRaw, hstem, hext, rfl, ?_, by omega⟩
          have h1 := strEndsWith_append ((stem ++ "-") ++ u)
            ("." ++ String.mk (List.map Char.toLower extRaw))
          rw [← String.append_assoc] at h1
          exact h1
  · intro stem extRaw hstem hext hlen
    simp only [generateFilename, hext, hstem]
    rw [if_pos (by omega)]

/-- Witness for C7 as amended, at the accepted filename `a.jpg`. -/
theorem claim_c7_witness :
    ∃ stem extRaw,
      rustFileStem (sanitize "a.jpg") = some stem ∧
      (splitChar '.' (sanitize "a.jpg").data).getLast? = some extRaw ∧
      "a-u.jpg" = stem ++ "-" ++ "u" ++ "." ++ String.mk (List.map Char.toLower extRaw) ∧
      strEndsWith "a-u.jpg" ("." ++ String.mk (List.map Char.toLower extRaw)) = true ∧
      "a-u.jpg".data.length ≤ MAX_FILE_NAME_LENGTH :=
  (claim_c7_corrected "u" "a.jpg").1 "a-u.jpg" rfl

/-- Helper: an upload with a valid declared filename cannot be the empty
string. -/
theorem valid_ext_ne_empty {fn : String} (hv : isValidImageExtension fn = true) :
    fn ≠ "" := by
  intro hfe
  rw [hfe] at hv
  exact absurd hv (by decide)

/-- Helper: full behaviour of `upload_file` on a well-formed single-field
request whose generated path is fresh and whose chunks fit the size limit:
the handler answers success, and the state either is unchanged (duplicate
content was discarded) or gains the file together with its digest entry. -/
theorem uploadFile_single (hash : ByteSeq → ByteSeq) (u fn n : String)
    (chunks : List ByteSeq) (st : ServerState)
    (hv : isValidImageExtension fn = true)
    (hg : generateFilename u fn = Except.ok n)
    (hfresh : st.disk.any (fun e => e.1 == imgPath n) = false)
    (hsz : sizeOfChunks chunks ≤ MAX_FILE_SIZE_BYTES) :
    uploadFile hash [u] [⟨some "wallpaper", some fn, chunks⟩] st =
      (Except.ok "File uploaded successfully",
        if isFileDuplicate hash st.index chunks.flatten then st
        else ⟨st.disk ++ [(imgPath n, chunks.flatten)],
              indexInsert st.index (imgPath n) (hash chunks.flatten)⟩) := by
  have hok := uploadAndSaveGo_ok chunks 0 (by omega)
  have hfn := valid_ext_ne_empty hv
  by_cases hdup : isFileDuplicate hash st.index chunks.flatten <;>
    simp [uploadFile, hfn, hv, hg, hfresh, uploadAndSave, hok, hdup]

/-- Helper: a list without duplicates in which every element equals `a` has
at most one element. -/
theorem length_le_one_of_forall_eq {α : Type} {l : List α} {a : α}
    (hn : l.Nodup) (hall : ∀ x ∈ l, x = a) : l.length ≤ 1 := by
  match l, hn with
  | [], _ => simp
  | [x], _ => simp
  | x :: y :: t, hn =>
    exfalso
    have hx := hall x (by simp)
    have hy := hall y (by simp)
    subst hx
    rw [List.nodup_cons] at hn
    exact hn.1 (by simp [hy])

/-- Helper: in a consistent state a content whose hash is already indexed is
stored exactly once and indexed exactly once. -/
theorem counts_of_dup (hash : ByteSeq → ByteSeq) (hinj : Function.Injective hash)
    (st : ServerState) (hcons : Consistent hash st) (c : ByteSeq)
    (hdup : isFileDuplicate hash st.index c = true) :
    countContent st.disk c = 1 ∧ countHash st.index (hash c) = 1 := by
  obtain ⟨hdnd, hdisk_to_ix, hix_to_disk, hvnd⟩ := hcons
  obtain ⟨e, he, heq⟩ := List.any_eq_true.mp hdup
  rw [beq_iff_eq] at heq
  have hlnd : st.index.Nodup := List.Nodup.of_map _ hvnd
  have hcount : countHash st.index (hash c) = 1 := by
    have hmemf : e ∈ st.index.filter (fun x => x.2 == hash c) :=
      List.mem_filter.mpr ⟨he, by simp [heq]⟩
    have hall : ∀ x ∈ st.index.filter (fun x => x.2 == hash c), x = e := by
      intro x hx
      obtain ⟨hxl, hxv⟩ := List.mem_filter.mp hx
      rw [beq_iff_eq] at hxv
      exact List.inj_on_of_nodup_map hvnd hxl he (by rw [hxv, heq])
    have h1 : (st.index.filter (fun x => x.2 == hash c)).length ≤ 1 :=
      length_le_one_of_forall_eq (hlnd.sublist (List.filter_sublist _)) hall
    have h2 : 1 ≤ (st.index.filter (fun x => x.2 == hash c)).length :=
      List.length_pos.mpr (List.ne_nil_of_mem hmemf)
    rw [countHash]
    omega
  refine ⟨?_, hcount⟩
  obtain ⟨c0, hc0disk, hc0e⟩ := hix_to_disk e.1 e.2 he
  have hc0c : c0 = c := hinj (by rw [← hc0e, heq])
  subst hc0c
  have hmemf : (e.1, c0) ∈ st.disk.filter (fun x => x.2 == c0) :=
    List.mem_filter.mpr ⟨hc0disk, by simp⟩
  have hall : ∀ x ∈ st.disk.filter (fun x => x.2 == c0), x = (e.1, c0) := by
    intro x hx
    obtain ⟨hxdisk, hxc⟩ := List.mem_filter.mp hx
    rw [beq_iff_eq] at hxc
    have hx_ix : (x.1, hash c0) ∈ st.index := by
      have := hdisk_to_ix x.1 x.2 hxdisk
      rwa [hxc] at this
    have he_ix : (e.1, hash c0) ∈ st.index := by
      have heprod : e = (e.1, e.2) := rfl
      rw [heq] at heprod
      rwa [heprod] at he
    have hpair := List.inj_on_of_nodup_map hvnd hx_ix he_ix rfl
    have hx1 : x.1 = e.1 := (Prod.ext_iff.mp hpair).1
    calc x = (x.1, x.2) := rfl
      _ = (e.1, c0) := by rw [hx1, hxc]
  have hnd : (st.disk.filter (fun x => x.2 == c0)).Nodup :=
    (List.Nodup.of_map _ hdnd).sublist (List.filter_sublist _)
  have h1 : (st.disk.filter (fun x => x.2 == c0)).length ≤ 1 :=
    length_le_one_of_forall_eq hnd hall
  have h2 : 1 ≤ (st.disk.filter (fun x => x.2 == c0)).length :=
    List.length_pos.mpr (List.ne_nil_of_mem hmemf)
  rw [countContent]
  omega

/-- Helper: in a consistent state a content whose hash is not yet indexed is
neither stored nor indexed. -/
theorem counts_of_not_dup (hash : ByteSeq → ByteSeq) (st : ServerState)
    (hcons : Consistent hash st) (c : ByteSeq)
    (hdup : isFileDuplicate hash st.index c = false) :
    countContent st.disk c = 0 ∧ countHash st.index (hash c) = 0 := by
  obtain ⟨-, hdisk_to_ix, -, -⟩ := hcons
  have hno : ∀ e ∈ st.index, ¬(e.2 == hash c) = true :=
    fun e he => List.any_eq_false.mp hdup e he
  constructor
  · rw [countContent, List.length_eq_zero]
    rw [List.filter_eq_nil_iff]
    intro e he
    rw [beq_iff_eq]
    intro hec
    have := hdisk_to_ix e.1 e.2 he
    rw [hec] at this
    exact hno (e.1, hash c) this (by simp)
  · rw [countHash, List.length_eq_zero, List.filter_eq_nil_iff]
    exact hno

/-- Helper: distinct stored names give distinct image-directory paths. -/
theorem imgPath_inj {a b : String} (h : imgPath a = imgPath b) : a = b := by
  have h2 := congrArg String.data h
  rw [imgPath, imgPath, String.data_append, String.data_append] at h2
  exact String.ext (List.append_cancel_left h2)

/-- Helper: inserting a path absent from the index is an append. -/
theorem indexInsert_of_fresh (ix : List (String × ByteSeq)) (p : String) (h : ByteSeq)
    (hfresh : ∀ e ∈ ix, e.1 ≠ p) : indexInsert ix p h = ix ++ [(p, h)] := by
  rw [indexInsert]
  congr 1
  exact List.filter_eq_self.mpr fun e he => by simp [hfresh e he]

/-- C2: starting from a consistent server state (digest index matching the
disk, no two live entries sharing a hash) and an injective content hash, two
sequential single-field uploads of byte-identical content under different
declared names — with fresh, distinct generated storage names and a size
within the limit — both answer success, and afterwards exactly one file with
that content is on disk and exactly one digest-index entry carries its hash. -/
theorem claim_c2 (hash : ByteSeq → ByteSeq) (hinj : Function.Injective hash)
    (st : ServerState) (hcons : Consistent hash st)
    (u1 u2 fn1 fn2 n1 n2 : String) (chunks : List ByteSeq)
    (hv1 : isValidImageExtension fn1 = true)
    (hv2 : isValidImageExtension fn2 = true)
    (hg1 : generateFilename u1 fn1 = Except.ok n1)
    (hg2 : generateFilename u2 fn2 = Except.ok n2)
    (hfresh1 : st.disk.any (fun e => e.1 == imgPath n1) = false)
    (hfresh2 : st.disk.any (fun e => e.1 == imgPath n2) = false)
    (hnn : n1 ≠ n2)
    (hsz : sizeOfChunks chunks ≤ MAX_FILE_SIZE_BYTES) :
    (uploadFile hash [u1] [⟨some "wallpaper", some fn1, chunks⟩] st).1 =
      Except.ok "File uploaded successfully" ∧
    (uploadFile hash [u2] [⟨some "wallpaper", some fn2, chunks⟩]
        (uploadFile hash [u1] [⟨some "wallpaper", some fn1, chunks⟩] st).2).1 =
      Except.ok "File uploaded successfully" ∧
    countContent (uploadFile hash [u2] [⟨some "wallpaper", some fn2, chunks⟩]
        (uploadFile hash [u1] [⟨some "wallpaper", some fn1, chunks⟩] st).2).2.disk
      chunks.flatten = 1 ∧
    countHash (uploadFile hash [u2] [⟨some "wallpaper", some fn2, chunks⟩]
        (uploadFile hash [u1] [⟨some "wallpaper", some fn1, chunks⟩] st).2).2.index
      (hash chunks.flatten) = 1 := by
  have hstep1 := uploadFile_single hash u1 fn1 n1 chunks st hv1 hg1 hfresh1 hsz
  by_cases hdup : isFileDuplicate hash st.index chunks.flatten = true
  · rw [if_pos hdup] at hstep1
    have hstep2 := uploadFile_single hash u2 fn2 n2 chunks st hv2 hg2 hfresh2 hsz
    rw [if_pos hdup] at hstep2
    obtain ⟨hcc, hch⟩ := counts_of_dup hash hinj st hcons chunks.flatten hdup
    rw [hstep1]
    exact ⟨rfl, by rw [hstep2], by rw [hstep2]; exact hcc, by rw [hstep2]; exact hch⟩
  · have hdupf : isFileDuplicate hash st.index chunks.flatten = false := by
      revert hdup
      cases isFileDuplicate hash st.index chunks.flatten <;> simp
    rw [if_neg hdup] at hstep1
    have hdiskne : ∀ e ∈ st.disk, e.1 ≠ imgPath n1 := by
      intro e he
      have := List.any_eq_false.mp hfresh1 e he
      simpa using this
    have hixne : ∀ e ∈ st.index, e.1 ≠ imgPath n1 := by
      intro e he heq
      obtain ⟨-, -, hix_to_disk, -⟩ := hcons
      obtain ⟨c0, hc0, -⟩ := hix_to_disk e.1 e.2 he
      exact hdiskne (e.1, c0) hc0 heq
    have hins := indexInsert_of_fresh st.index (imgPath n1) (hash chunks.flatten) hixne
    have hpne : imgPath n1 ≠ imgPath n2 := fun h => hnn (imgPath_inj h)
    have hfresh2b :
        (st.disk ++ [(imgPath n1, chunks.flatten)]).any
          (fun e => e.1 == imgPath n2) = false := by
      rw [List.any_append, hfresh2]
      simp [hpne]
    have hstep2 := uploadFile_single hash u2 fn2 n2 chunks
      ⟨st.disk ++ [(imgPath n1, chunks.flatten)],
       indexInsert st.index (imgPath n1) (hash chunks.flatten)⟩
      hv2 hg2 hfresh2b hsz
    have hdup2 : isFileDuplicate hash
        (indexInsert st.index (imgPath n1) (hash chunks.flatten)) chunks.flatten = true := by
      rw [hins, isFileDuplicate, List.any_append]
      simp
    rw [if_pos hdup2] at hstep2
    obtain ⟨hcc0, hch0⟩ := counts_of_not_dup hash st hcons chunks.flatten hdupf
    have hcc1 : countContent (st.disk ++ [(imgPath n1, chunks.flatten)]) chunks.flatten = 1 := by
      rw [countContent, List.filter_append]
      rw [countContent] at hcc0
      simp [hcc0]
    have hch1 : countHash (indexInsert st.index (imgPath n1) (hash chunks.flatten))
        (hash chunks.flatten) = 1 := by
      rw [hins, countHash, List.filter_append]
      rw [countHash] at hch0
      simp [hch0]
    rw [hstep1]
    exact ⟨rfl, by rw [hstep2], by rw [hstep2]; exact hcc1, by rw [hstep2]; exact hch1⟩

/-- Witness for C2: two uploads of the one-chunk content `[1]` under the
declared names `a.jpg` and `b.jpg` into an empty server. -/
theorem claim_c2_witness :
    (uploadFile (fun c => c) ["u"] [⟨some "wallpaper", some "a.jpg", [[1]]⟩] ⟨[], []⟩).1 =
      Except.ok "File uploaded successfully" ∧
    (uploadFile (fun c => c) ["v"] [⟨some "wallpaper", some "b.jpg", [[1]]⟩]
        (uploadFile (fun c => c) ["u"]
          [⟨some "wallpaper", some "a.jpg", [[1]]⟩] ⟨[], []⟩).2).1 =
      Except.ok "File uploaded successfully" ∧
    countContent (uploadFile (fun c => c) ["v"] [⟨some "wallpaper", some "b.jpg", [[1]]⟩]
        (uploadFile (fun c => c) ["u"]
          [⟨some "wallpaper", some "a.jpg", [[1]]⟩] ⟨[], []⟩).2).2.disk
      [[1]].flatten = 1 ∧
    countHash (uploadFile (fun c => c) ["v"] [⟨some "wallpaper", some "b.jpg", [[1]]⟩]
        (uploadFile (fun c => c) ["u"]
          [⟨some "wallpaper", some "a.jpg", [[1]]⟩] ⟨[], []⟩).2).2.index
      ((fun c => c) [[1]].flatten) = 1 :=
  claim_c2 (fun c => c) (fun a b h => h) ⟨[], []⟩
    (by refine ⟨?_, ?_, ?_, ?_⟩ <;> simp)
    "u" "v" "a.jpg" "b.jpg" "a-u.jpg" "b-v.jpg" [[1]]
    (by decide) (by decide) rfl rfl rfl rfl (by decide) (by decide)

/-- C3 counterexample: the reachable interleaving in which both upload tasks
run their duplicate check before either inserts its digest.  Both tasks
complete (`pc = 3`), yet two digest-index entries share the same hash value
and two files with identical content remain on disk, refuting the claimed
invariant for this interleaving. -/
theorem claim_c3_counterexample :
    (runSched (fun c => c) "wallpapers/a.jpg" "wallpapers/b.jpg" [7]
        [false, true, false, true, false, true]
        (⟨0, false⟩, ⟨0, false⟩, ⟨[], []⟩)).1.pc = 3 ∧
    (runSched (fun c => c) "wallpapers/a.jpg" "wallpapers/b.jpg" [7]
        [false, true, false, true, false, true]
        (⟨0, false⟩, ⟨0, false⟩, ⟨[], []⟩)).2.1.pc = 3 ∧
    countHash (runSched (fun c => c) "wallpapers/a.jpg" "wallpapers/b.jpg" [7]
        [false, true, false, true, false, true]
        (⟨0, false⟩, ⟨0, false⟩, ⟨[], []⟩)).2.2.index ((fun c => c) [7]) = 2 ∧
    countContent (runSched (fun c => c) "wallpapers/a.jpg" "wallpapers/b.jpg" [7]
        [false, true, false, true, false, true]
        (⟨0, false⟩, ⟨0, false⟩, ⟨[], []⟩)).2.2.disk [7] = 2 := by
  decide

/-- C3 as amended: the server does **not** guarantee content uniqueness under
concurrent uploads — there is a reachable interleaving of two upload handlers
for byte-identical content, started from a consistent (even empty) state with
an injective hash and distinct storage paths, after which both handlers have
completed yet two live digest-index entries share the same hash value and two
files with identical content remain on disk (the §9 check-then-insert race). -/
theorem claim_c3_corrected :
    ∃ (hash : ByteSeq → ByteSeq) (sched : List Bool) (p1 p2 : String)
      (c : ByteSeq) (st : ServerState),
      Function.Injective hash ∧ p1 ≠ p2 ∧ Consistent hash st ∧
      (runSched hash p1 p2 c sched (⟨0, false⟩, ⟨0, false⟩, st)).1.pc = 3 ∧
      (runSched hash p1 p2 c sched (⟨0, false⟩, ⟨0, false⟩, st)).2.1.pc = 3 ∧
      countHash (runSched hash p1 p2 c sched
        (⟨0, false⟩, ⟨0, false⟩, st)).2.2.index (hash c) = 2 ∧
      countContent (runSched hash p1 p2 c sched
        (⟨0, false⟩, ⟨0, false⟩, st)).2.2.disk c = 2 :=
  ⟨fun c => c, [false, true, false, true, false, true],
   "wallpapers/a.jpg", "wallpapers/b.jpg", [7], ⟨[], []⟩,
   fun a b h => h, by decide,
   by refine ⟨?_, ?_, ?_, ?_⟩ <;> simp,
   by decide, by decide, by decide, by decide⟩
